import Mathlib

/-!
Verification of the go-relay core against its specification.

The definitions below are a shallow embedding of the Go sources:
  relay/relay.go            (bundle catalog, supervisor state machine)
  relay/worker/output_parser.go  (line-oriented output parser)
  the worker executeCommand variant shipped in the repository
Machine integers are modelled as Nat with explicit reduction modulo 2^64
where overflow matters; Go maps over string keys are modelled as
association lists; fallible steps return Option.
-/

namespace GoRelay

/-! ## FNV-64 hasher model (hash/fnv)

Go's fnv.New64() returns an FNV-1 64-bit hasher whose state starts at the
offset basis.  Its Sum method appends the current digest to its argument
and returns the resulting slice without changing the hasher state; only
Write folds bytes into the state.  The hasher state is modelled as a Nat.
-/

/-- Initial state of fnv.New64(): the 64-bit FNV offset basis. -/
def fnv64OffsetBasis : Nat := 14695981039346656037

/-- The 64-bit FNV prime. -/
def fnv64Prime : Nat := 1099511628211

/-- Models (hash.Hash64).Write for FNV-1: each byte b updates the state s
to ((s * prime) mod 2^64) xor b.  Included for reference: the source's
computeBundleHash never invokes the write path. -/
def fnv64Write (s : Nat) (bytes : List Nat) : Nat :=
  bytes.foldl (fun h b => (h * fnv64Prime % 2 ^ 64) ^^^ b) s

/-- Big-endian byte decomposition of a 64-bit state, as appended by Sum. -/
def beBytes8 (s : Nat) : List Nat :=
  [s / 2 ^ 56 % 256, s / 2 ^ 48 % 256, s / 2 ^ 40 % 256, s / 2 ^ 32 % 256,
   s / 2 ^ 24 % 256, s / 2 ^ 16 % 256, s / 2 ^ 8 % 256, s % 256]

/-- Models (hash.Hash64).Sum: appends the current digest, big-endian, to
the argument and returns that slice.  It does not change the hasher
state, which is why the caller below keeps the same state h. -/
def fnv64Sum (s : Nat) (b : List Nat) : List Nat := b ++ beBytes8 s

/-- UTF-8 encoding of one character, as Go's []byte(string) produces. -/
def utf8EncodeChar (c : Char) : List Nat :=
  let n := c.toNat
  if n < 128 then [n]
  else if n < 2048 then [192 + n / 64, 128 + n % 64]
  else if n < 65536 then [224 + n / 4096, 128 + n / 64 % 64, 128 + n % 64]
  else [240 + n / 262144, 128 + n / 4096 % 64, 128 + n / 64 % 64, 128 + n % 64]

/-- UTF-8 bytes of a string, as Go's []byte(k). -/
def utf8Bytes (s : String) : List Nat := (s.data.map utf8EncodeChar).flatten

/-- Byte-wise lexicographic comparison of char lists, mirroring Go string
ordering used by sort.Strings. -/
def charListLe : List Char → List Char → Bool
  | [], _ => true
  | _ :: _, [] => false
  | a :: as, b :: bs =>
      if a < b then true else if b < a then false else charListLe as bs

/-- Insert a string into a sorted list, keeping it sorted. -/
def insertSorted (x : String) : List String → List String
  | [] => [x]
  | y :: ys => if charListLe x.data y.data then x :: y :: ys else y :: insertSorted x ys

/-- Models sort.Strings: sorts the keys lexicographically. -/
def sortStrings (l : List String) : List String := l.foldr insertSorted []

/-- Embeds computeBundleHash (relay.go lines 375-386): collect the keys of
the bundle map, sort them, then for each key call h.Sum with the key's
bytes, discarding the returned slice — exactly as the source does.  Since
Sum never writes to the hasher, the state threaded through the loop is
unchanged and the final h.Sum64() is the untouched offset basis. -/
def computeBundleHash {β : Type} (bundles : List (String × β)) : Nat :=
  let keys := sortStrings (bundles.map Prod.fst)
  let h := keys.foldl (fun h k => let _ := fnv64Sum h (utf8Bytes k); h) fnv64OffsetBasis
  h

/-! ## Relay catalog and supervisor state (relay.go) -/

/-- Runtime states of a Relay (relay.go lines 35-40). -/
inductive State where
  | RelayStopped
  | RelayStarting
  | RelayUpdatingBundles
  | RelayReady
  deriving DecidableEq

/-- The supervisor-relevant fields of the Relay struct (relay.go lines
56-72): catalog map, its hash, the announce flag, the hasStarted latch
and the runtime state.  The bundle value type is a parameter because the
embedded code never inspects config.Bundle values. -/
structure Relay (β : Type) where
  state : State
  bundles : List (String × β)
  bundlesHash : Nat
  announce : Bool
  hasStarted : Bool
  deriving DecidableEq

/-- Embeds New (relay.go lines 75-85): fresh Relay with an empty bundle
map, Go zero values for bundlesHash, announce and hasStarted, and state
RelayStopped. -/
def New (β : Type) : Relay β :=
  { state := State.RelayStopped, bundles := [], bundlesHash := 0,
    announce := false, hasStarted := false }

/-- Embeds UpdateBundleList (relay.go lines 144-153): compute the hash of
the new map; when the stored hash differs, install the new map and hash
and raise the announce flag, otherwise leave everything untouched. -/
def UpdateBundleList {β : Type} (r : Relay β) (bundles : List (String × β)) : Relay β :=
  let newBundlesHash := computeBundleHash bundles
  if r.bundlesHash ≠ newBundlesHash then
    { r with bundles := bundles, bundlesHash := newBundlesHash, announce := true }
  else r

/-- Association-list lookup mirroring a Go map read. -/
def lookupName {β : Type} : List (String × β) → String → Option β
  | [], _ => none
  | (k, v) :: rest, name => if k = name then some v else lookupName rest name

/-- Embeds GetBundle (relay.go lines 136-140). -/
def GetBundle {β : Type} (r : Relay β) (name : String) : Option β :=
  lookupName r.bundles name

/-- Embeds BundleNames (relay.go lines 156-167): the keys of the map. -/
def BundleNames {β : Type} (r : Relay β) : List String :=
  r.bundles.map Prod.fst

/-- Observable side effects of handleUpdateBundlesDone: whether a bundle
announcement was published and whether logBadState fired. -/
structure DoneEffects where
  announced : Bool
  loggedBadState : Bool
  deriving DecidableEq

/-- Embeds handleUpdateBundlesDone (relay.go lines 286-301): in state
RelayUpdatingBundles it publishes an announcement exactly when the
announce flag is set (then clears the flag), latches hasStarted and moves
to RelayReady; in any other state it calls logBadState and changes
nothing. -/
def handleUpdateBundlesDone {β : Type} (r : Relay β) : Relay β × DoneEffects :=
  if r.state = State.RelayUpdatingBundles then
    let announced := r.announce
    let r1 := if r.announce then { r with announce := false } else r
    let r2 := if r1.hasStarted = false then { r1 with hasStarted := true } else r1
    ({ r2 with state := State.RelayReady },
     { announced := announced, loggedBadState := false })
  else
    (r, { announced := false, loggedBadState := true })

/-- Embeds FinishedUpdateBundles (relay.go lines 127-133): returns true
(and enqueues RelayUpdateBundlesDone) only in state RelayUpdatingBundles. -/
def FinishedUpdateBundles {β : Type} (r : Relay β) : Bool :=
  r.state = State.RelayUpdatingBundles

/-! ## Go values and string helpers for the output parser -/

/-- A Go interface value as it can appear in ExecutionResponse.Body: nil,
a string, a json.Number (the literal digits, as produced by a decoder
with UseNumber), a boolean, a JSON array or a JSON object. -/
inductive GoVal where
  | nil
  | str (s : String)
  | num (literal : String)
  | boolean (b : Bool)
  | arr (xs : List GoVal)
  | obj (fields : List (String × GoVal))

/-- Modelled from the spec: messages.ExecutionRequest (the messages
package is not under src).  Required fields per the data model: the
bundle name, the command, the reply topic and the pipeline id; a
decodable payload may leave any of them empty. -/
structure ExecutionRequest where
  bundleName : String
  command : String
  replyTo : String
  pipelineID : String

/-- The fields of messages.ExecutionResponse touched by the embedded
code: status, statusMessage, template, the isJSON flag and the body.
Fresh responses carry Go zero values (empty strings, false, nil). -/
structure ExecutionResponse where
  status : String
  statusMessage : String
  template : String
  isJSON : Bool
  body : GoVal

/-- A fresh response as allocated by the worker: all Go zero values. -/
def mkFreshResponse : ExecutionResponse :=
  { status := "", statusMessage := "", template := "", isJSON := false, body := GoVal.nil }

/-- The engine result contract (api.ExecResult): stdout and stderr of the
executed command, decoded as strings. -/
structure ExecResult where
  stdout : String
  stderr : String

/-- Levels of the logrus calls reachable from writeToLog. -/
inductive LogLevel where
  | debug
  | info
  | warn
  | error
  deriving DecidableEq

/-- One log record emitted by writeToLog: level plus the data interpolated
into the format string "(P: %s C: %s) %s". -/
structure LogEvent where
  level : LogLevel
  pipelineID : String
  command : String
  message : String
  deriving DecidableEq

/-- Models strings.TrimSuffix(s, "\n"): drop one trailing newline. -/
def trimSuffixNl (s : String) : String :=
  match s.data.getLast? with
  | some c => if c = '\n' then ⟨s.data.dropLast⟩ else s
  | none => s

/-- Models strings.Split(s, "\n") on the character list: splitting the
empty string yields one empty field, and every newline starts a new
field. -/
def splitLinesAux : List Char → List String
  | [] => [""]
  | c :: rest =>
      let r := splitLinesAux rest
      if c = '\n' then "" :: r
      else
        match r with
        | h :: t => (⟨c :: h.data⟩ : String) :: t
        | [] => [⟨[c]⟩]

/-- Models strings.Split(s, "\n"). -/
def splitLines (s : String) : List String := splitLinesAux s.data

/-- The lines parseOutput iterates over: stdout with one trailing newline
stripped, split on newlines. -/
def outputLines (stdout : String) : List String := splitLines (trimSuffixNl stdout)

/-- Prefix test on character lists, mirroring an anchored ^pat regex. -/
def charsLeadWith : List Char → List Char → Bool
  | [], _ => true
  | _ :: _, [] => false
  | p :: ps, s :: ss => p = s && charsLeadWith ps ss

/-- Whether s starts with p, as MatchString of an anchored prefix regex. -/
def strStartsWith (p s : String) : Bool := charsLeadWith p.data s.data

/-- Drop the first n characters of a string. -/
def strDrop (s : String) (n : Nat) : String := ⟨s.data.drop n⟩

/-- Models strings.Trim(s, " "): strip leading and trailing space
characters (only the space character, unlike a generic trim). -/
def trimSpaces (s : String) : String :=
  ⟨((s.data.dropWhile (fun c => c = ' ')).reverse.dropWhile (fun c => c = ' ')).reverse⟩

/-- Models strings.Join(l, "\n"). -/
def goJoin : List String → String
  | [] => ""
  | h :: t => t.foldl (fun acc x => acc ++ "\n" ++ x) h

/-- Embeds writeToLog (output_parser.go lines 80-98).  The argument is the
result of re.Split(line, 2); when it has fewer than two entries nothing
is logged.  Otherwise the remainder is space-trimmed and the switch on
the first entry picks the level, falling through to Infof by default.
Note that re.Split with the full anchored marker prefix always yields ""
as first entry, so the DEBUG/WARN/ERR/ERROR cases are unreachable. -/
def writeToLog (line : List String) (resp : ExecutionResponse) (req : ExecutionRequest) :
    ExecutionResponse × Option LogEvent :=
  match line with
  | l0 :: l1 :: _ =>
      let message := trimSpaces l1
      let level :=
        if l0 = "DEBUG:" then LogLevel.debug
        else if l0 = "WARN:" then LogLevel.warn
        else if l0 = "ERR:" then LogLevel.error
        else if l0 = "ERROR:" then LogLevel.error
        else LogLevel.info
      (resp, some { level := level, pipelineID := req.pipelineID,
                    command := req.command, message := message })
  | _ => (resp, none)

/-- Embeds extractTemplate (output_parser.go lines 100-105). -/
def extractTemplate (line : List String) (resp : ExecutionResponse) (req : ExecutionRequest) :
    ExecutionResponse × Option LogEvent :=
  match line with
  | _ :: l1 :: _ => ({ resp with template := trimSpaces l1 }, none)
  | _ => (resp, none)

/-- Embeds flagJSON (output_parser.go lines 107-109). -/
def flagJSON (line : List String) (resp : ExecutionResponse) (req : ExecutionRequest) :
    ExecutionResponse × Option LogEvent :=
  ({ resp with isJSON := true }, none)

/-- One entry of the outputParsers table: the regex match test, the
re.Split(line, 2) result, and the callback. -/
structure OutputParserEntry where
  hasMatch : String → Bool
  splitLine : String → List String
  cb : List String → ExecutionResponse → ExecutionRequest →
        ExecutionResponse × Option LogEvent

/-- Entry for an anchored prefix pattern ^p: MatchString tests the
prefix, and re.Split(line, 2) yields "" and the text after the prefix. -/
def markerRule (p : String)
    (cb : List String → ExecutionResponse → ExecutionRequest →
            ExecutionResponse × Option LogEvent) : OutputParserEntry :=
  { hasMatch := fun line => strStartsWith p line,
    splitLine := fun line => ["", strDrop line p.length],
    cb := cb }

/-- Entry for the anchored whole-line pattern ^s$: MatchString tests
equality, and re.Split(line, 2) yields two empty strings. -/
def exactRule (s : String)
    (cb : List String → ExecutionResponse → ExecutionRequest →
            ExecutionResponse × Option LogEvent) : OutputParserEntry :=
  { hasMatch := fun line => line == s,
    splitLine := fun _ => ["", ""],
    cb := cb }

/-- Embeds the outputParsers map (output_parser.go lines 16-24).  Go
iterates a map in unspecified order, but the seven patterns are pairwise
exclusive on any line, so the fixed order below is observationally
identical to every iteration order. -/
def outputParsers : List OutputParserEntry :=
  [ markerRule "COGCMD_DEBUG:" writeToLog,
    markerRule "COGCMD_INFO:" writeToLog,
    markerRule "COGCMD_WARN:" writeToLog,
    markerRule "COGCMD_ERR:" writeToLog,
    markerRule "COGCMD_ERROR:" writeToLog,
    markerRule "COG_TEMPLATE:" extractTemplate,
    exactRule "JSON" flagJSON ]

/-- The first entry of the parser table matching the line, if any. -/
def findRule (line : String) : Option OutputParserEntry :=
  outputParsers.find? fun e => e.hasMatch line

/-- Whether some entry of the parser table matches the line. -/
def isMarkerLine (line : String) : Bool :=
  outputParsers.any fun e => e.hasMatch line

/-- The per-line loop of parseOutput (output_parser.go lines 35-48): each
line is fed to the callback of the first matching rule, and lines
matching no rule are retained in order.  Returns the updated response,
the retained lines and the log records in emission order. -/
def processLines (req : ExecutionRequest) :
    List String → ExecutionResponse → ExecutionResponse × List String × List LogEvent
  | [], resp => (resp, [], [])
  | line :: rest, resp =>
      match findRule line with
      | some e =>
          let step := e.cb (e.splitLine line) resp req
          let q := processLines req rest step.1
          (q.1, q.2.1, step.2.toList ++ q.2.2)
      | none =>
          let q := processLines req rest resp
          (q.1, line :: q.2.1, q.2.2)

/-- Embeds parseOutput (output_parser.go lines 26-78).  The JSON decoder
(encoding/json with UseNumber) is external to the repository and passed
in abstractly as dec; everything else follows the source: engine error
short-circuits, non-empty stdout is trimmed, split and fed through the
marker rules, non-empty stderr overrides the response, and otherwise the
status becomes ok and the body is built from the retained lines. -/
def parseOutput (dec : String → Option GoVal) (result : ExecResult) (err : Option String)
    (resp₀ : ExecutionResponse) (req : ExecutionRequest) :
    ExecutionResponse × List LogEvent :=
  match err with
  | some e => ({ resp₀ with status := "error", statusMessage := e }, [])
  | none =>
      let step :=
        if result.stdout.length > 0 then
          processLines req (outputLines result.stdout) resp₀
        else (resp₀, [], [])
      let resp := step.1
      let retained := step.2.1
      let logs := step.2.2
      if result.stderr.length > 0 then
        ({ resp with status := "error", statusMessage := result.stderr }, logs)
      else
        let resp := { resp with status := "ok" }
        if resp.isJSON then
          match dec (goJoin retained) with
          | none => ({ resp with status := "error", statusMessage := "Command returned invalid JSON." }, logs)
          | some v => ({ resp with body := v }, logs)
        else
          if retained.length > 0 then
            ({ resp with
                 body := GoVal.arr [GoVal.obj [("body", GoVal.arr (retained.map GoVal.str))]] },
             logs)
          else (resp, logs)

/-- The retained (non-marker) lines of a stdout payload. -/
def retainedOf (stdout : String) : List String :=
  (outputLines stdout).filter fun l => !(isMarkerLine l)

/-- Modelled from the spec: the execution worker runs the engine, feeds
the result through the output parser with a fresh response, and publishes
the response on request.replyTo (section 4.4 of the spec).  The
executeCommand variant present in src predates the parser (its engine
call returns a bare stdout/stderr pair and it never calls parseOutput),
so the wiring is taken from the spec. -/
def publishedExecutionResponse (dec : String → Option GoVal) (result : ExecResult)
    (err : Option String) (req : ExecutionRequest) : ExecutionResponse × List LogEvent :=
  parseOutput dec result err mkFreshResponse req

/-! ## The worker executeCommand shipped in src -/

/-- Outcome of engineForBundle plus engine.Execute for one request, as
seen by the src executeCommand: engine construction error, execution
error, or command output with stdout and stderr. -/
inductive EngineOutcome where
  | mkErr (msg : String)
  | execErr (msg : String)
  | execOk (stdout : String) (stderr : String)

/-- Embeds the src executeCommand (src/unnamed/part_000 lines 13-47).
The payload decode (json.Unmarshal into messages.ExecutionRequest, both
external to src) is abstracted as its Option result; the engine pipeline
is abstracted as a function from request and bundle to EngineOutcome.
Returns the message published on request.replyTo, or none when the
request is dropped, together with whether the malformed-request error was
logged.  Note: a decode failure is the only path that drops the message;
every decoded request — empty fields included — ends in a publish. -/
def executeCommand {β : Type} (r : Relay β) (decoded : Option ExecutionRequest)
    (engine : ExecutionRequest → β → EngineOutcome) :
    Option (String × ExecutionResponse) × Bool :=
  match decoded with
  | none => (none, true)
  | some request =>
      let bundle := GetBundle r request.bundleName
      let response : ExecutionResponse :=
        match bundle with
        | none =>
            { mkFreshResponse with status := "error", statusMessage := "Unknown command bundle " ++ request.bundleName }
        | some b =>
            match engine request b with
            | EngineOutcome.mkErr e =>
                { mkFreshResponse with status := "error", statusMessage := e }
            | EngineOutcome.execErr e =>
                { mkFreshResponse with status := "error", statusMessage := e }
            | EngineOutcome.execOk out errs =>
                if errs.length > 0 then
                  { mkFreshResponse with status := "error", statusMessage := errs }
                else
                  { mkFreshResponse with status := "ok", body := GoVal.str out }
      (some (request.replyTo, response), false)

/-- A concrete request fixture used by witnesses. -/
def reqFix : ExecutionRequest :=
  { bundleName := "b", command := "c", replyTo := "r", pipelineID := "p" }

/-- A concrete decoder fixture used by witnesses: accepts exactly the
payload produced by the JSON witness run. -/
def decFix : String → Option GoVal :=
  fun s => if s = "[1,2]" then some (GoVal.arr [GoVal.num "1", GoVal.num "2"]) else none

/-- A Relay fixture sitting in RelayUpdatingBundles with a pending
announcement. -/
def relayUpdating : Relay Unit :=
  { state := State.RelayUpdatingBundles, bundles := [("a", Unit.unit)],
    bundlesHash := 5, announce := true, hasStarted := false }

/-- A Relay fixture sitting in RelayReady. -/
def relayReady : Relay Unit :=
  { state := State.RelayReady, bundles := [("a", Unit.unit)],
    bundlesHash := 5, announce := false, hasStarted := true }

end GoRelay

namespace GoRelay

/-! ## Lemmas about the hash and the catalog -/

lemma foldlDiscard (l : List String) (a : Nat) :
    l.foldl (fun h k => let _ := fnv64Sum h (utf8Bytes k); h) a = a := by
  induction l generalizing a with
  | nil => rfl
  | cons x xs ih =>
      rw [List.foldl_cons]
      exact ih a

lemma computeBundleHash_eq_basis {β : Type} (m : List (String × β)) :
    computeBundleHash m = fnv64OffsetBasis := by
  unfold computeBundleHash
  exact foldlDiscard _ _

lemma update_noop_at_basis {β : Type} (r : Relay β)
    (h : r.bundlesHash = fnv64OffsetBasis) (m : List (String × β)) :
    UpdateBundleList r m = r := by
  unfold UpdateBundleList
  rw [computeBundleHash_eq_basis, h]
  simp

lemma foldl_update_noop {β : Type} (rest : List (List (String × β))) (s : Relay β)
    (hs : s.bundlesHash = fnv64OffsetBasis) :
    rest.foldl UpdateBundleList s = s := by
  induction rest with
  | nil => rfl
  | cons x xs ih =>
      rw [List.foldl_cons, update_noop_at_basis s hs x]
      exact ih

/-! ## Claim C1 -/

/-- C1: the claim states that maps whose key sets differ in at least one
key get different hashes from computeBundleHash.  The code violates this:
because the loop calls Sum (which does not write into the hasher) and
discards its result, every map hashes to the FNV-64 offset basis.  This
theorem evaluates the code at the failing input: the singleton maps with
key sets (a) and (b) receive the same hash, namely the offset basis
14695981039346656037. -/
theorem bundleHash_collides_on_distinct_keys :
    computeBundleHash [("a", Unit.unit)] = computeBundleHash [("b", Unit.unit)] ∧
    computeBundleHash [("a", Unit.unit)] = 14695981039346656037 := by
  exact ⟨rfl, rfl⟩

/-! ## Claim C2 -/

/-- C2: UpdateBundleList is a no-op when the computed hash of the new map
equals the stored hash, and otherwise installs the new map and hash and
sets the announce flag to true. -/
theorem updateBundleList_semantics {β : Type} (r : Relay β) (m : List (String × β)) :
    (computeBundleHash m = r.bundlesHash → UpdateBundleList r m = r) ∧
    (computeBundleHash m ≠ r.bundlesHash →
       (UpdateBundleList r m).bundles = m ∧
       (UpdateBundleList r m).bundlesHash = computeBundleHash m ∧
       (UpdateBundleList r m).announce = true ∧
       (UpdateBundleList r m).state = r.state ∧
       (UpdateBundleList r m).hasStarted = r.hasStarted) := by
  constructor
  · intro hEq
    unfold UpdateBundleList
    rw [hEq]
    simp
  · intro hNe
    unfold UpdateBundleList
    have hNe2 : r.bundlesHash ≠ computeBundleHash m := fun hc => hNe hc.symm
    simp [hNe2]

/-- Witness for C2: concrete instances of both branches.  Starting from a
fresh Relay (stored hash 0) an update with map [(a, ())] installs the map
and raises the flag; a second update of the resulting Relay (stored hash
now the offset basis) with the different map [(b, ())] leaves the Relay
unchanged, because every computed hash equals the stored basis. -/
theorem updateBundleList_semantics_witness :
    (UpdateBundleList (New Unit) [("a", Unit.unit)]).bundles = [("a", Unit.unit)] ∧
    (UpdateBundleList (New Unit) [("a", Unit.unit)]).announce = true ∧
    UpdateBundleList (UpdateBundleList (New Unit) [("a", Unit.unit)]) [("b", Unit.unit)]
      = UpdateBundleList (New Unit) [("a", Unit.unit)] := by
  refine ⟨((updateBundleList_semantics (New Unit) [("a", Unit.unit)]).2 (by decide)).1,
          ((updateBundleList_semantics (New Unit) [("a", Unit.unit)]).2 (by decide)).2.2.1,
          (updateBundleList_semantics (UpdateBundleList (New Unit) [("a", Unit.unit)])
            [("b", Unit.unit)]).1 (by decide)⟩

/-! ## Claim C3 -/

/-- C3: from a fresh Relay, the first UpdateBundleList call always
installs its map and sets the announce flag (every computed hash is the
fixed FNV-64 offset basis, which differs from the zero initial stored
hash), and every subsequent UpdateBundleList call, with any map at all,
leaves the catalog map, hash and announce flag unchanged. -/
theorem firstUpdate_installs_then_all_noop {β : Type} (m : List (String × β))
    (rest : List (List (String × β))) :
    (UpdateBundleList (New β) m).bundles = m ∧
    (UpdateBundleList (New β) m).bundlesHash = fnv64OffsetBasis ∧
    (UpdateBundleList (New β) m).announce = true ∧
    rest.foldl UpdateBundleList (UpdateBundleList (New β) m)
      = UpdateBundleList (New β) m := by
  have hfirst : UpdateBundleList (New β) m =
      { New β with bundles := m, bundlesHash := computeBundleHash m, announce := true } := by
    unfold UpdateBundleList
    have h0 : (New β).bundlesHash ≠ computeBundleHash m := by
      rw [computeBundleHash_eq_basis]
      show (0 : Nat) ≠ fnv64OffsetBasis
      decide
    simp [h0]
  refine ⟨by rw [hfirst], ?_, by rw [hfirst], ?_⟩
  · rw [hfirst]
    exact computeBundleHash_eq_basis m
  · refine foldl_update_noop rest _ ?_
    rw [hfirst]
    exact computeBundleHash_eq_basis m

end GoRelay



namespace GoRelay

/-! ## Lemmas about the output parser loop -/

lemma strLenPos {s : String} (h : s ≠ "") : s.length > 0 := by
  cases s with
  | mk data =>
      cases data with
      | nil => exact absurd rfl h
      | cons c cs => simp [String.length]

lemma findRule_eq (line : String) :
    findRule line = outputParsers.find? (fun e => e.hasMatch line) := rfl

lemma isMarker_false_of_findRule_none {line : String} (h : findRule line = none) :
    isMarkerLine line = false := by
  rw [findRule_eq] at h
  unfold isMarkerLine
  cases hb : outputParsers.any (fun e => e.hasMatch line) with
  | false => rfl
  | true =>
      rcases List.any_eq_true.mp hb with ⟨e, hmem, hp⟩
      exact absurd hp (List.find?_eq_none.mp h e hmem)

lemma isMarker_true_of_findRule_some {line : String} {e : OutputParserEntry}
    (h : findRule line = some e) : isMarkerLine line = true := by
  rw [findRule_eq] at h
  have hp := List.find?_some h
  have hmem := List.mem_of_find?_eq_some h
  unfold isMarkerLine
  exact List.any_eq_true.mpr ⟨e, hmem, hp⟩

lemma findRule_mem {line : String} {e : OutputParserEntry}
    (h : findRule line = some e) : e ∈ outputParsers := by
  rw [findRule_eq] at h
  exact List.mem_of_find?_eq_some h

lemma findRule_matches {line : String} {e : OutputParserEntry}
    (h : findRule line = some e) : e.hasMatch line = true := by
  rw [findRule_eq] at h
  have hp := List.find?_some h
  exact hp

lemma writeToLog_fst (args : List String) (resp : ExecutionResponse)
    (req : ExecutionRequest) : (writeToLog args resp req).1 = resp := by
  unfold writeToLog
  rcases args with _ | ⟨a, _ | ⟨b, t⟩⟩ <;> rfl

lemma writeToLog_core (args : List String) (resp : ExecutionResponse)
    (req : ExecutionRequest) :
    (writeToLog args resp req).1.body = resp.body ∧
    (writeToLog args resp req).1.status = resp.status ∧
    (writeToLog args resp req).1.statusMessage = resp.statusMessage := by
  rw [writeToLog_fst]
  exact ⟨rfl, rfl, rfl⟩

lemma writeToLog_isJSON (args : List String) (resp : ExecutionResponse)
    (req : ExecutionRequest) : (writeToLog args resp req).1.isJSON = resp.isJSON := by
  rw [writeToLog_fst]

lemma extractTemplate_core (args : List String) (resp : ExecutionResponse)
    (req : ExecutionRequest) :
    (extractTemplate args resp req).1.body = resp.body ∧
    (extractTemplate args resp req).1.status = resp.status ∧
    (extractTemplate args resp req).1.statusMessage = resp.statusMessage := by
  unfold extractTemplate
  rcases args with _ | ⟨a, _ | ⟨b, t⟩⟩ <;> exact ⟨rfl, rfl, rfl⟩

lemma extractTemplate_isJSON (args : List String) (resp : ExecutionResponse)
    (req : ExecutionRequest) :
    (extractTemplate args resp req).1.isJSON = resp.isJSON := by
  unfold extractTemplate
  rcases args with _ | ⟨a, _ | ⟨b, t⟩⟩ <;> rfl

lemma flagJSON_core (args : List String) (resp : ExecutionResponse)
    (req : ExecutionRequest) :
    (flagJSON args resp req).1.body = resp.body ∧
    (flagJSON args resp req).1.status = resp.status ∧
    (flagJSON args resp req).1.statusMessage = resp.statusMessage :=
  ⟨rfl, rfl, rfl⟩

lemma cb_preserves_core {e : OutputParserEntry} (he : e ∈ outputParsers)
    (args : List String) (resp : ExecutionResponse) (req : ExecutionRequest) :
    (e.cb args resp req).1.body = resp.body ∧
    (e.cb args resp req).1.status = resp.status ∧
    (e.cb args resp req).1.statusMessage = resp.statusMessage := by
  simp only [outputParsers, List.mem_cons, List.not_mem_nil, or_false] at he
  rcases he with rfl | rfl | rfl | rfl | rfl | rfl | rfl <;>
    first
      | exact writeToLog_core args resp req
      | exact extractTemplate_core args resp req
      | exact flagJSON_core args resp req

lemma cb_isJSON_of_not_json {e : OutputParserEntry} (he : e ∈ outputParsers)
    {line : String} (hp : e.hasMatch line = true) (hne : line ≠ "JSON")
    (args : List String) (resp : ExecutionResponse) (req : ExecutionRequest) :
    (e.cb args resp req).1.isJSON = resp.isJSON := by
  simp only [outputParsers, List.mem_cons, List.not_mem_nil, or_false] at he
  rcases he with rfl | rfl | rfl | rfl | rfl | rfl | rfl <;>
    first
      | exact writeToLog_isJSON args resp req
      | exact extractTemplate_isJSON args resp req
      | exact absurd (beq_iff_eq.mp (show (line == "JSON") = true from hp)) hne

lemma processLines_retained (req : ExecutionRequest) (lns : List String) :
    ∀ resp : ExecutionResponse,
      (processLines req lns resp).2.1 = lns.filter (fun l => !(isMarkerLine l)) := by
  induction lns with
  | nil => intro resp; rfl
  | cons line rest ih =>
      intro resp
      cases hf : findRule line with
      | none =>
          have hm : isMarkerLine line = false := isMarker_false_of_findRule_none hf
          simp only [processLines]
          rw [hf]
          simp only [List.filter_cons, hm, Bool.not_false, if_pos]
          rw [ih resp]
      | some e =>
          have hm : isMarkerLine line = true := isMarker_true_of_findRule_some hf
          simp only [processLines]
          rw [hf]
          simp only [List.filter_cons, hm, Bool.not_true]
          simp only [Bool.false_eq_true, if_false]
          exact ih _

lemma processLines_core (req : ExecutionRequest) (lns : List String) :
    ∀ resp : ExecutionResponse,
      (processLines req lns resp).1.body = resp.body ∧
      (processLines req lns resp).1.status = resp.status ∧
      (processLines req lns resp).1.statusMessage = resp.statusMessage := by
  induction lns with
  | nil => intro resp; exact ⟨rfl, rfl, rfl⟩
  | cons line rest ih =>
      intro resp
      cases hf : findRule line with
      | none =>
          simp only [processLines]
          rw [hf]
          exact ih resp
      | some e =>
          have hc := cb_preserves_core (findRule_mem hf) (e.splitLine line) resp req
          simp only [processLines]
          rw [hf]
          rcases ih (e.cb (e.splitLine line) resp req).1 with ⟨i1, i2, i3⟩
          exact ⟨i1.trans hc.1, i2.trans hc.2.1, i3.trans hc.2.2⟩

lemma processLines_isJSON (req : ExecutionRequest) (lns : List String) :
    ∀ resp : ExecutionResponse,
      (processLines req lns resp).1.isJSON
        = (resp.isJSON || lns.any (fun l => l == "JSON")) := by
  induction lns with
  | nil => intro resp; simp [processLines]
  | cons line rest ih =>
      intro resp
      by_cases hline : line = "JSON"
      · subst hline
        have hf : findRule "JSON" = some (exactRule "JSON" flagJSON) := rfl
        simp only [processLines]
        rw [hf]
        rw [ih]
        simp [exactRule, flagJSON]
      · cases hf : findRule line with
        | none =>
            simp only [processLines]
            rw [hf]
            rw [ih resp]
            have hb : (line == "JSON") = false := beq_eq_false_iff_ne.mpr hline
            simp [List.any_cons, hb]
        | some e =>
            have hpre := cb_isJSON_of_not_json (findRule_mem hf) (findRule_matches hf)
              hline (e.splitLine line) resp req
            simp only [processLines]
            rw [hf]
            rw [ih, hpre]
            have hb : (line == "JSON") = false := beq_eq_false_iff_ne.mpr hline
            simp [List.any_cons, hb]

end GoRelay

namespace GoRelay

/-! ## Branch reduction for parseOutput runs without engine error or stderr -/

lemma parseOutput_no_stderr (dec : String → Option GoVal) (req : ExecutionRequest)
    (stdout : String) (hlen : stdout.length > 0) :
    parseOutput dec ⟨stdout, ""⟩ none mkFreshResponse req
      = (let step := processLines req (outputLines stdout) mkFreshResponse
         let resp := { step.1 with status := "ok" }
         if resp.isJSON then
           match dec (goJoin step.2.1) with
           | none => ({ resp with status := "error", statusMessage := "Command returned invalid JSON." }, step.2.2)
           | some v => ({ resp with body := v }, step.2.2)
         else
           if step.2.1.length > 0 then
             ({ resp with body := GoVal.arr [GoVal.obj [("body", GoVal.arr (step.2.1.map GoVal.str))]] }, step.2.2)
           else (resp, step.2.2)) := by
  simp only [parseOutput]
  rw [if_pos hlen]
  rw [if_neg (by decide : ¬ (("" : String).length > 0))]

/-! ## Claim C4 -/

/-- C4: for a run with no engine error and empty stderr whose stdout has
at least one non-marker line and no JSON flag line, the published
response body is the single-element list holding a map from "body" to the
retained non-marker lines; those lines are the marker-free lines of
stdout in original order (a sublist of the split stdout, hence without
duplication of occurrences, and containing no marker line). -/
theorem publishedBody_is_retained_lines (dec : String → Option GoVal)
    (req : ExecutionRequest) (stdout : String)
    (h0 : stdout ≠ "")
    (hJ : ∀ l ∈ outputLines stdout, l ≠ "JSON")
    (hr : retainedOf stdout ≠ []) :
    (publishedExecutionResponse dec ⟨stdout, ""⟩ none req).1.body
        = GoVal.arr [GoVal.obj [("body", GoVal.arr ((retainedOf stdout).map GoVal.str))]] ∧
    List.Sublist (retainedOf stdout) (outputLines stdout) ∧
    ∀ l ∈ retainedOf stdout, isMarkerLine l = false := by
  have hlen : stdout.length > 0 := strLenPos h0
  have hret : (processLines req (outputLines stdout) mkFreshResponse).2.1
      = retainedOf stdout := processLines_retained req (outputLines stdout) mkFreshResponse
  have hanyF : ((outputLines stdout).any fun l => l == "JSON") = false := by
    rw [List.any_eq_false]
    intro l hl
    simpa using hJ l hl
  have hisj : (processLines req (outputLines stdout) mkFreshResponse).1.isJSON = false := by
    rw [processLines_isJSON, hanyF]
    rfl
  have hlenr : (processLines req (outputLines stdout) mkFreshResponse).2.1.length > 0 := by
    rw [hret]
    exact List.length_pos.mpr hr
  refine ⟨?_, ?_, ?_⟩
  · show (parseOutput dec ⟨stdout, ""⟩ none mkFreshResponse req).1.body = _
    rw [parseOutput_no_stderr dec req stdout hlen]
    simp only [hisj, hret, if_pos, if_neg, Bool.false_eq_true, if_false]
    rw [if_pos (List.length_pos.mpr hr)]
  · rw [show retainedOf stdout = (outputLines stdout).filter (fun l => !(isMarkerLine l)) from rfl]
    exact List.filter_sublist _
  · intro l hl
    rw [show retainedOf stdout = (outputLines stdout).filter (fun l => !(isMarkerLine l)) from rfl] at hl
    have hm := (List.mem_filter.mp hl).2
    simpa using hm

/-- Witness for C4: stdout with one marker line and two plain lines; the
published body is the single-element body map holding exactly the two
plain lines in order. -/
theorem publishedBody_is_retained_lines_witness :
    (publishedExecutionResponse (fun _ => none) ⟨"COGCMD_INFO: note\nhello\nworld\n", ""⟩ none reqFix).1.body
      = GoVal.arr [GoVal.obj [("body", GoVal.arr [GoVal.str "hello", GoVal.str "world"])]] := by
  have h := publishedBody_is_retained_lines (fun _ => none) reqFix
    "COGCMD_INFO: note\nhello\nworld\n" (by decide) (by decide) (by decide)
  exact h.1

/-! ## Claim C5 -/

/-- C5: the claim states that a COGCMD_DEBUG (resp. WARN, ERR, ERROR)
line's remainder is logged at level DEBUG (resp. WARN, ERROR).  The code
violates this: re.Split(line, 2) with the anchored full-prefix pattern
always yields the empty string as first element, so writeToLog's switch
falls through to the default Infof branch for every marker.  Evaluating
the code at the failing stdout "COGCMD_DEBUG: hello\n" shows the single
log record carries level info, not debug — the only part of the claim
that holds here is that the line is consumed (nothing retained, body
unset). -/
theorem cogcmdMarkersLogAtInfo :
    (parseOutput (fun _ => none) ⟨"COGCMD_DEBUG: hello\n", ""⟩ none mkFreshResponse reqFix).2
      = [{ level := LogLevel.info, pipelineID := "p", command := "c", message := "hello" }] ∧
    (parseOutput (fun _ => none) ⟨"COGCMD_DEBUG: hello\n", ""⟩ none mkFreshResponse reqFix).1.body
      = GoVal.nil ∧
    (parseOutput (fun _ => none) ⟨"COGCMD_WARN: careful\n", ""⟩ none mkFreshResponse reqFix).2
      = [{ level := LogLevel.info, pipelineID := "p", command := "c", message := "careful" }] ∧
    LogLevel.info ≠ LogLevel.debug ∧ LogLevel.info ≠ LogLevel.warn := by
  exact ⟨rfl, rfl, rfl, by decide, by decide⟩

/-! ## Claim C7 -/

/-- C7: when stdout contains a line consisting exactly of JSON (with no
engine error and empty stderr), the retained lines joined with newlines
are fed to the JSON decoder: on decode failure the response has status
error and statusMessage "Command returned invalid JSON.", and on success
the body is the decoded value with status ok.  The decoder is abstract,
so this holds for every decoder, in particular encoding/json with
UseNumber. -/
theorem jsonFlag_decodes_retained (dec : String → Option GoVal)
    (req : ExecutionRequest) (stdout : String)
    (hJ : "JSON" ∈ outputLines stdout) :
    (dec (goJoin (retainedOf stdout)) = none →
       (parseOutput dec ⟨stdout, ""⟩ none mkFreshResponse req).1.status = "error" ∧
       (parseOutput dec ⟨stdout, ""⟩ none mkFreshResponse req).1.statusMessage
         = "Command returned invalid JSON.") ∧
    (∀ v, dec (goJoin (retainedOf stdout)) = some v →
       (parseOutput dec ⟨stdout, ""⟩ none mkFreshResponse req).1.status = "ok" ∧
       (parseOutput dec ⟨stdout, ""⟩ none mkFreshResponse req).1.body = v) := by
  have h0 : stdout ≠ "" := by
    intro he
    subst he
    have : outputLines "" = [""] := rfl
    rw [this] at hJ
    simp at hJ
  have hlen : stdout.length > 0 := strLenPos h0
  have hret : (processLines req (outputLines stdout) mkFreshResponse).2.1
      = retainedOf stdout := processLines_retained req (outputLines stdout) mkFreshResponse
  have hisj : (processLines req (outputLines stdout) mkFreshResponse).1.isJSON = true := by
    rw [processLines_isJSON]
    have hany : ((outputLines stdout).any fun l => l == "JSON") = true :=
      List.any_eq_true.mpr ⟨"JSON", hJ, by simp⟩
    rw [hany]
    simp
  constructor
  · intro hdec
    constructor
    all_goals
      rw [parseOutput_no_stderr dec req stdout hlen]
      simp only [hisj, hret, if_pos, hdec]
  · intro v hdec
    constructor
    all_goals
      rw [parseOutput_no_stderr dec req stdout hlen]
      simp only [hisj, hret, if_pos, hdec]

/-- Witness for C7: stdout "JSON\n[1,2]\n" with a decoder accepting
exactly "[1,2]" yields status ok and the decoded array as body. -/
theorem jsonFlag_decodes_retained_witness :
    (parseOutput decFix ⟨"JSON\n[1,2]\n", ""⟩ none mkFreshResponse reqFix).1.status = "ok" ∧
    (parseOutput decFix ⟨"JSON\n[1,2]\n", ""⟩ none mkFreshResponse reqFix).1.body
      = GoVal.arr [GoVal.num "1", GoVal.num "2"] := by
  exact (jsonFlag_decodes_retained decFix reqFix "JSON\n[1,2]\n" (by decide)).2
    (GoVal.arr [GoVal.num "1", GoVal.num "2"]) rfl

/-! ## Claim C8 -/

/-- C8: an execution that returns without engine error but with
non-empty stderr produces a response with status error and statusMessage
equal to the stderr contents, and no body derived from stdout: the body
keeps its fresh value nil. -/
theorem stderrOverridesResponse (dec : String → Option GoVal) (req : ExecutionRequest)
    (result : ExecResult) (herr : result.stderr ≠ "") :
    (parseOutput dec result none mkFreshResponse req).1.status = "error" ∧
    (parseOutput dec result none mkFreshResponse req).1.statusMessage = result.stderr ∧
    (parseOutput dec result none mkFreshResponse req).1.body = GoVal.nil := by
  have hslen : result.stderr.length > 0 := strLenPos herr
  simp only [parseOutput]
  by_cases hs : result.stdout.length > 0
  · rw [if_pos hs, if_pos hslen]
    have hb := (processLines_core req (outputLines result.stdout) mkFreshResponse).1
    exact ⟨rfl, rfl, hb⟩
  · rw [if_neg hs, if_pos hslen]
    exact ⟨rfl, rfl, rfl⟩

/-- Witness for C8: stdout "ignored\n" with stderr "boom" gives an error
response carrying "boom" and a nil body. -/
theorem stderrOverridesResponse_witness :
    (parseOutput (fun _ => none) ⟨"ignored\n", "boom"⟩ none mkFreshResponse reqFix).1.status = "error" ∧
    (parseOutput (fun _ => none) ⟨"ignored\n", "boom"⟩ none mkFreshResponse reqFix).1.statusMessage = "boom" ∧
    (parseOutput (fun _ => none) ⟨"ignored\n", "boom"⟩ none mkFreshResponse reqFix).1.body = GoVal.nil := by
  exact stderrOverridesResponse (fun _ => none) reqFix ⟨"ignored\n", "boom"⟩ (by decide)

/-! ## Claim C6 -/

/-- C6 counterexample: the claim states that a decoded request with empty
bundleName or replyTo is dropped with no response published.  The code
only guards against undecodable payloads: a decodable payload with both
fields empty reaches the unknown-bundle path and a response with status
error and message "Unknown command bundle " is published on the empty
reply topic, so the message is not dropped. -/
theorem emptyBundleNameStillPublishes :
    (executeCommand (New Unit)
        (some { bundleName := "", command := "", replyTo := "", pipelineID := "" })
        (fun _ _ => EngineOutcome.execOk "" "")).1
      = some ("", { mkFreshResponse with status := "error", statusMessage := "Unknown command bundle " }) := by
  rfl

/-- C6 amended: a payload that fails to decode is logged and dropped with
no response published and the worker continues; every payload that does
decode — empty bundleName or replyTo included — results in a response
published on the decoded replyTo topic. -/
theorem executeCommand_drop_semantics (β : Type) (r : Relay β)
    (engine : ExecutionRequest → β → EngineOutcome) :
    executeCommand r none engine = (none, true) ∧
    ∀ request : ExecutionRequest, ∃ resp,
      (executeCommand r (some request) engine).1 = some (request.replyTo, resp) ∧
      (executeCommand r (some request) engine).2 = false := by
  exact ⟨rfl, fun request => ⟨_, rfl, rfl⟩⟩

/-! ## Claim C9 -/

/-- C9: handling RefreshBundlesDone in state RelayUpdatingBundles
publishes an announcement iff the announce flag is set, clears the flag,
keeps the catalog and hash, and moves to RelayReady; in any other state
the message is logged as a bad-state message and dropped with the Relay
unchanged, and FinishedUpdateBundles refuses to even enqueue it. -/
theorem updateBundlesDone_semantics {β : Type} (r : Relay β) :
    (r.state = State.RelayUpdatingBundles →
       (handleUpdateBundlesDone r).2.announced = r.announce ∧
       (handleUpdateBundlesDone r).1.announce = false ∧
       (handleUpdateBundlesDone r).1.state = State.RelayReady ∧
       (handleUpdateBundlesDone r).1.bundles = r.bundles ∧
       (handleUpdateBundlesDone r).1.bundlesHash = r.bundlesHash ∧
       (handleUpdateBundlesDone r).2.loggedBadState = false) ∧
    (r.state ≠ State.RelayUpdatingBundles →
       handleUpdateBundlesDone r = (r, { announced := false, loggedBadState := true }) ∧
       FinishedUpdateBundles r = false) := by
  constructor
  · intro h
    by_cases ha : r.announce <;> by_cases hs : r.hasStarted <;>
      simp [handleUpdateBundlesDone, h, ha, hs]
  · intro h
    refine ⟨?_, ?_⟩
    · simp [handleUpdateBundlesDone, h]
    · simp [FinishedUpdateBundles, h]

/-- Witness for C9: a Relay in RelayUpdatingBundles with the announce
flag set reaches RelayReady with the flag cleared and the announcement
published, while a Relay in RelayReady is left entirely unchanged with
the bad-state log fired. -/
theorem updateBundlesDone_semantics_witness :
    (handleUpdateBundlesDone relayUpdating).2.announced = true ∧
    (handleUpdateBundlesDone relayUpdating).1.announce = false ∧
    (handleUpdateBundlesDone relayUpdating).1.state = State.RelayReady ∧
    handleUpdateBundlesDone relayReady
      = (relayReady, { announced := false, loggedBadState := true }) := by
  have h1 := (updateBundlesDone_semantics relayUpdating).1 rfl
  have h2 := (updateBundlesDone_semantics relayReady).2 (by decide)
  exact ⟨h1.1, h1.2.1, h1.2.2.1, h2.1⟩

end GoRelay
